import Mathlib

/-!
Verification development for the `ungerik/go-rss` feed library.

The Lean definitions below are a shallow embedding of the library's Go
source:
* a model of the slice of Go's `time` package layout machinery that the
  library's `Date` type uses (layouts `"Mon, 02 Jan 2006 15:04:05 -0700"`,
  RFC 822 and RFC 3339, plus caller-chosen output layouts built from the
  same layout tokens);
* the RSS/Atom record types and the `encoding/xml` field binding the
  library relies on, over an XML document tree (tokenisation of the raw
  byte stream is abstracted as an `Except` input: a stream is either a
  well-formed document tree or a read/syntax error);
* the fetch path `ReadWithClient` with its URL validation, header
  selection and status-code handling, with explicit accounting of how
  often a response body is closed.
-/

namespace GoRss

/-! ### Characters and digit helpers -/

def digitChar (n : Nat) : Char := Char.ofNat (48 + n)

def digVal (c : Char) : Nat := c.toNat - 48

/-- Go's digit test `'0' <= c && c <= '9'`. -/
def isDigitChar (c : Char) : Bool := 48 ≤ c.toNat && c.toNat ≤ 57

/-- Go's `appendInt(v, 2)`: zero-padded to at least two digits, full
decimal representation when the value is wider. -/
def pad2 (n : Nat) : List Char :=
  if n < 100 then [digitChar (n / 10), digitChar (n % 10)] else Nat.toDigits 10 n

/-- Go's `appendInt(v, 4)`: zero-padded to at least four digits, full
decimal representation when the value is wider. -/
def pad4 (n : Nat) : List Char :=
  if n < 10000 then
    [digitChar (n / 1000 % 10), digitChar (n / 100 % 10), digitChar (n / 10 % 10),
      digitChar (n % 10)]
  else Nat.toDigits 10 n

/-! ### The time model

`GoTime` carries the wall-clock fields together with the zone offset
(seconds east of UTC) and zone name, exactly the data Go's `time.Time`
exposes to `Format` for the layouts in play.  Go's `time.Parse` defaults:
January 1, year 0, 00:00:00, UTC. -/

structure GoTime where
  year : Nat
  month : Nat
  day : Nat
  hour : Nat
  minute : Nat
  second : Nat
  offset : Int
  zname : String
  deriving DecidableEq, Repr

/-- Days since 1970-01-01 in the proleptic Gregorian calendar
(standard civil-from-days algorithm, matching Go's calendar). -/
def daysFromCivil (y : Int) (m d : Nat) : Int :=
  let yy : Int := if m ≤ 2 then y - 1 else y
  let era : Int := (if 0 ≤ yy then yy else yy - 399) / 400
  let yoe : Int := yy - era * 400
  let mp : Nat := (m + 9) % 12
  let doy : Nat := (153 * mp + 2) / 5 + d - 1
  let doe : Int := yoe * 365 + yoe / 4 - yoe / 100 + (doy : Int)
  era * 146097 + doe - 719468

/-- Weekday as a number, Sunday = 0 (Go's `time.Weekday` numbering);
1970-01-01 was a Thursday (4). -/
def weekday (y m d : Nat) : Nat := ((daysFromCivil (y : Int) m d + 4) % 7).toNat

def wdayNames : List String := ["Sun", "Mon", "Tue", "Wed", "Thu", "Fri", "Sat"]

def monthNames : List String :=
  ["Jan", "Feb", "Mar", "Apr", "May", "Jun", "Jul", "Aug", "Sep", "Oct", "Nov", "Dec"]

def wdayName (w : Nat) : String := wdayNames.getD w "Sun"

def monthName (m : Nat) : String := monthNames.getD (m - 1) "Jan"

/-! ### Layout tokens and the layout scanner

Go scans a layout string into literal runs and standard tokens
(`nextStdChunk`).  The token set here covers every token appearing in the
three layouts the library tries (`wordpressDateFormat`, `time.RFC822`,
`time.RFC3339`) plus the caller-chosen output layouts exercised by the
library's tests. -/

inductive LayoutTok where
  | lit (c : Char)
  | wday
  | day2
  | mon3
  | month2
  | yr2
  | yr4
  | hh24
  | min2
  | sec2
  | numTZ
  | nameTZ
  | isoTZ
  deriving DecidableEq, Repr

/-- `dropLit p s` strips the exact character sequence `p` from the front of
`s`. -/
def dropLit : List Char → List Char → Option (List Char)
  | [], s => some s
  | _ :: _, [] => none
  | p :: ps, c :: cs => if p = c then dropLit ps cs else none

def tokDefs : List (List Char × LayoutTok) :=
  [("2006".data, .yr4), ("15".data, .hh24), ("Mon".data, .wday), ("Jan".data, .mon3),
    ("MST".data, .nameTZ), ("Z07:00".data, .isoTZ), ("-0700".data, .numTZ),
    ("01".data, .month2), ("02".data, .day2), ("04".data, .min2), ("05".data, .sec2),
    ("06".data, .yr2)]

def tokAt (s : List Char) : Option (LayoutTok × Nat) :=
  tokDefs.findSome? fun pt =>
    match dropLit pt.1 s with
    | some _ => some (pt.2, pt.1.length)
    | none => none

def scanLayout : Nat → List Char → List LayoutTok
  | 0, _ => []
  | fuel + 1, s =>
    match s with
    | [] => []
    | c :: cs =>
      match tokAt (c :: cs) with
      | some (tok, k) => tok :: scanLayout fuel ((c :: cs).drop k)
      | none => .lit c :: scanLayout fuel cs

def layoutChunks (layout : String) : List LayoutTok :=
  scanLayout layout.data.length layout.data

/-! ### Formatting (the model of `time.Time.Format`) -/

def signChar (off : Int) : Char := if off < 0 then '-' else '+'

def fmtOffset (off : Int) (colon : Bool) : List Char :=
  signChar off ::
    (pad2 (off.natAbs / 60 / 60) ++ (if colon then [':'] else []) ++ pad2 (off.natAbs / 60 % 60))

def fmtTok (t : GoTime) : LayoutTok → List Char
  | .lit c => [c]
  | .wday => (wdayName (weekday t.year t.month t.day)).data
  | .day2 => pad2 t.day
  | .mon3 => (monthName t.month).data
  | .month2 => pad2 t.month
  | .yr2 => pad2 (t.year % 100)
  | .yr4 => pad4 t.year
  | .hh24 => pad2 t.hour
  | .min2 => pad2 t.minute
  | .sec2 => pad2 t.second
  | .numTZ => fmtOffset t.offset false
  -- Go prints the numeric offset when the zone has no name.
  | .nameTZ => if t.zname = "" then fmtOffset t.offset false else t.zname.data
  | .isoTZ => if t.offset = 0 then ['Z'] else fmtOffset t.offset true

def fmtChunks (toks : List LayoutTok) (t : GoTime) : List Char :=
  match toks with
  | [] => []
  | tok :: rest => fmtTok t tok ++ fmtChunks rest t

def goFormat (layout : String) (t : GoTime) : String :=
  String.mk (fmtChunks (layoutChunks layout) t)

/-! ### Parsing (the model of `time.Parse`) -/

structure PState where
  year : Option Nat := none
  month : Option Nat := none
  day : Option Nat := none
  hour : Option Nat := none
  minute : Option Nat := none
  second : Option Nat := none
  zoff : Option Int := none
  zlit : Option String := none
  deriving DecidableEq, Repr

def take2 : List Char → Option (Nat × List Char)
  | c1 :: c2 :: rest =>
    if isDigitChar c1 && isDigitChar c2 then some (digVal c1 * 10 + digVal c2, rest)
    else none
  | _ => none

def take4 : List Char → Option (Nat × List Char)
  | c1 :: c2 :: c3 :: c4 :: rest =>
    if isDigitChar c1 && isDigitChar c2 && isDigitChar c3 && isDigitChar c4 then
      some (((digVal c1 * 10 + digVal c2) * 10 + digVal c3) * 10 + digVal c4, rest)
    else none
  | _ => none

/-- Go's `getnum` with `fixed = false`: one or two digits. -/
def take1or2 : List Char → Option (Nat × List Char)
  | c1 :: c2 :: rest =>
    if isDigitChar c1 then
      if isDigitChar c2 then some (digVal c1 * 10 + digVal c2, rest)
      else some (digVal c1, c2 :: rest)
    else none
  | [c1] => if isDigitChar c1 then some (digVal c1, []) else none
  | [] => none

/-- Go's name lookup compares ASCII case-insensitively. -/
def lowerEq (a b : Char) : Bool := a.toLower = b.toLower

def dropNameCI : List Char → List Char → Option (List Char)
  | [], s => some s
  | _ :: _, [] => none
  | p :: ps, c :: cs => if lowerEq p c then dropNameCI ps cs else none

def findName (names : List String) (idx : Nat) (s : List Char) : Option (Nat × List Char) :=
  match names with
  | [] => none
  | n :: rest =>
    match dropNameCI n.data s with
    | some r => some (idx, r)
    | none => findName rest (idx + 1) s

def isUpperLetter (c : Char) : Bool := 65 ≤ c.toNat && c.toNat ≤ 90

/-- Zone-abbreviation parsing for the `MST` token.  Go's `parseTimeZone`
also accepts longer abbreviations and a few special forms; three uppercase
letters covers the zone names reachable through this library's layouts. -/
def takeTZName : List Char → Option (String × List Char)
  | c1 :: c2 :: c3 :: rest =>
    if isUpperLetter c1 && isUpperLetter c2 && isUpperLetter c3 then
      some (String.mk [c1, c2, c3], rest)
    else none
  | _ => none

def takeSign : List Char → Option (Bool × List Char)
  | c :: rest =>
    if c = '-' then some (true, rest) else if c = '+' then some (false, rest) else none
  | [] => none

def takeColon (colon : Bool) : List Char → Option (List Char)
  | c :: rest => if colon then (if c = ':' then some rest else none) else some (c :: rest)
  | [] => if colon then none else some []

def takeOffset (colon : Bool) (s : List Char) : Option (Int × List Char) :=
  match takeSign s with
  | none => none
  | some (neg, s1) =>
    match take2 s1 with
    | none => none
    | some (hh, s2) =>
      match takeColon colon s2 with
      | none => none
      | some s3 =>
        match take2 s3 with
        | none => none
        | some (mm, s4) =>
          -- Go applies no range check to parsed numeric zone offsets:
          -- any two-digit hour and minute fields are accepted.
          some (if neg then -(((hh * 3600 + mm * 60 : Nat)) : Int)
            else (((hh * 3600 + mm * 60 : Nat)) : Int), s4)

def parseTok (tok : LayoutTok) (st : PState) (s : List Char) :
    Except String (PState × List Char) :=
  match tok with
  | .lit c =>
    match s with
    | c2 :: rest =>
      if c2 = c then .ok (st, rest) else .error "literal mismatch"
    | [] => .error "unexpected end of value"
  -- Go checks a weekday name for syntax but otherwise ignores it.
  | .wday =>
    match findName wdayNames 0 s with
    | some (_, rest) => .ok (st, rest)
    | none => .error "cannot parse weekday name"
  | .day2 =>
    match take2 s with
    | some (n, rest) => .ok ({ st with day := some n }, rest)
    | none => .error "cannot parse day"
  | .mon3 =>
    match findName monthNames 0 s with
    | some (i, rest) => .ok ({ st with month := some (i + 1) }, rest)
    | none => .error "cannot parse month name"
  | .month2 =>
    match take2 s with
    | some (n, rest) => .ok ({ st with month := some n }, rest)
    | none => .error "cannot parse month"
  -- Two-digit years: 69..99 map to 19xx, 00..68 map to 20xx (Go semantics).
  | .yr2 =>
    match take2 s with
    | some (n, rest) =>
      .ok ({ st with year := some (if 69 ≤ n then 1900 + n else 2000 + n) }, rest)
    | none => .error "cannot parse year"
  | .yr4 =>
    match take4 s with
    | some (n, rest) => .ok ({ st with year := some n }, rest)
    | none => .error "cannot parse year"
  | .hh24 =>
    match take1or2 s with
    | some (n, rest) => .ok ({ st with hour := some n }, rest)
    | none => .error "cannot parse hour"
  | .min2 =>
    match take2 s with
    | some (n, rest) => .ok ({ st with minute := some n }, rest)
    | none => .error "cannot parse minute"
  | .sec2 =>
    match take2 s with
    | some (n, rest) => .ok ({ st with second := some n }, rest)
    | none => .error "cannot parse second"
  | .numTZ =>
    match takeOffset false s with
    | some (z, rest) => .ok ({ st with zoff := some z }, rest)
    | none => .error "cannot parse numeric time zone"
  | .nameTZ =>
    match takeTZName s with
    | some (n, rest) => .ok ({ st with zlit := some n }, rest)
    | none => .error "cannot parse time zone name"
  | .isoTZ =>
    match s with
    | c :: rest =>
      if c = 'Z' then .ok ({ st with zlit := some "UTC" }, rest)
      else
        match takeOffset true (c :: rest) with
        | some (z, rest2) => .ok ({ st with zoff := some z }, rest2)
        | none => .error "cannot parse ISO 8601 time zone"
    | [] => .error "cannot parse ISO 8601 time zone"

def parseChunks : List LayoutTok → PState → List Char → Except String PState
  | [], st, [] => .ok st
  | [], _, _ :: _ => .error "extra text"
  | tok :: rest, st, s =>
    match parseTok tok st s with
    | .error e => .error e
    | .ok (st2, s2) => parseChunks rest st2 s2

def isLeap (y : Nat) : Bool := y % 4 = 0 && (y % 100 ≠ 0 || y % 400 = 0)

def daysInMonth (y m : Nat) : Nat :=
  if m = 2 then (if isLeap y then 29 else 28)
  else if m = 4 || m = 6 || m = 9 || m = 11 then 30
  else 31

/-- Field validation and zone resolution at the end of a parse.  The range
checks are exactly Go's (`month/day/hour/minute/second out of range`); a
parsed numeric zone offset is accepted unchecked, as in Go.  A parsed zone
abbreviation yields a zero-offset zone carrying the abbreviation (Go
fabricates such a location); a numeric offset yields an unnamed fixed
zone; with no zone information Go defaults to UTC. -/
def finalize (st : PState) : Except String GoTime :=
  if st.month.getD 1 < 1 ∨ 12 < st.month.getD 1 then .error "month out of range"
  else if st.day.getD 1 < 1 ∨ daysInMonth (st.year.getD 0) (st.month.getD 1) < st.day.getD 1 then
    .error "day out of range"
  else if 24 ≤ st.hour.getD 0 then .error "hour out of range"
  else if 60 ≤ st.minute.getD 0 then .error "minute out of range"
  else if 60 ≤ st.second.getD 0 then .error "second out of range"
  else
    match st.zoff with
    | some z =>
      .ok ⟨st.year.getD 0, st.month.getD 1, st.day.getD 1, st.hour.getD 0,
        st.minute.getD 0, st.second.getD 0, z, ""⟩
    | none =>
      match st.zlit with
      | some n =>
        .ok ⟨st.year.getD 0, st.month.getD 1, st.day.getD 1, st.hour.getD 0,
          st.minute.getD 0, st.second.getD 0, 0, n⟩
      | none =>
        .ok ⟨st.year.getD 0, st.month.getD 1, st.day.getD 1, st.hour.getD 0,
          st.minute.getD 0, st.second.getD 0, 0, "UTC"⟩

def quoteStr (s : String) : String := "\"" ++ s ++ "\""

/-- The model of Go's `time.Parse layout value`. -/
def goTimeParse (layout value : String) : Except String GoTime :=
  match parseChunks (layoutChunks layout) {} value.data with
  | .error detail =>
    .error ("parsing time " ++ quoteStr value ++ " as " ++ quoteStr layout ++ ": " ++ detail)
  | .ok st =>
    match finalize st with
    | .error detail =>
      .error ("parsing time " ++ quoteStr value ++ " as " ++ quoteStr layout ++ ": " ++ detail)
    | .ok t => .ok t

/-! ### The library's `Date` type (src/rss.go) -/

/-- `type Date string` -/
def Date := String

instance : DecidableEq Date := inferInstanceAs (DecidableEq String)

/-- `const wordpressDateFormat = "Mon, 02 Jan 2006 15:04:05 -0700"` -/
def wordpressDateFormat : String := "Mon, 02 Jan 2006 15:04:05 -0700"

/-- Go's `time.RFC822`. -/
def RFC822 : String := "02 Jan 06 15:04 MST"

/-- Go's `time.RFC3339`. -/
def RFC3339 : String := "2006-01-02T15:04:05Z07:00"

/-- `func (d Date) ParseWithFormat(format string) (time.Time, error)` -/
def Date.ParseWithFormat (d : Date) (format : String) : Except String GoTime :=
  goTimeParse format d

/-- `func (d Date) Parse() (time.Time, error)`: wordpress layout, then
RFC 822, then RFC 3339; the value and error of the last attempt made are
returned. -/
def Date.Parse (d : Date) : Except String GoTime :=
  match d.ParseWithFormat wordpressDateFormat with
  | .ok t => .ok t
  | .error _ =>
    match d.ParseWithFormat RFC822 with
    | .ok t => .ok t
    | .error _ => d.ParseWithFormat RFC3339

/-- `func (d Date) Format(format string) (string, error)`: Go returns the
pair `("", err)` on failure, `(formatted, nil)` on success. -/
def Date.Format (d : Date) (format : String) : String × Option String :=
  match d.Parse with
  | .error e => ("", some e)
  | .ok t => (goFormat format t, none)

/-- `func (d Date) MustFormat(format string) string`: on failure the error
text itself is returned in place of a formatted date. -/
def Date.MustFormat (d : Date) (format : String) : String :=
  match d.Format format with
  | (s, none) => s
  | (_, some e) => e

/-! ### XML documents and the `encoding/xml` field binding

An XML document is a tree of elements (with attributes) and character
data.  Decoding a byte stream has two stages in Go: tokenisation (which
fails on malformed XML or an unreadable stream) and field binding (which
is total: elements are matched to struct fields by tag, everything else is
ignored).  Tokenisation, charset conversion included, is stdlib
collaboration; its outcome is modelled as the `Stream` input below. -/

inductive Xml where
  | elem (tag : String) (attrs : List (String × String)) (children : List Xml)
  | text (s : String)

/-- Character data directly inside an element, concatenated; nested
elements are skipped when a simple (string) field is being filled. -/
def innerText : List Xml → String
  | [] => ""
  | .text s :: rest => s ++ innerText rest
  | .elem _ _ _ :: rest => innerText rest

/-- First value of an attribute (attributes are unique in well-formed
XML), empty string when absent — the zero value of a `,attr` field. -/
def attrOr : List (String × String) → String → String
  | [], _ => ""
  | (k, v) :: rest, name => if k = name then v else attrOr rest name

/-! The record types of src/unnamed/part_000 (RSS) and
src/unnamed/part_001 (Atom). -/

instance : Repr Date := inferInstanceAs (Repr String)

structure ItemEnclosure where
  URL : String
  Type_ : String
  deriving DecidableEq, Repr

structure Item where
  Title : String
  Link : String
  Comments : String
  PubDate : Date
  GUID : String
  Category : List String
  Enclosure : List ItemEnclosure
  Description : String
  Author : String
  Content : String
  FullText : String
  deriving Repr

structure Channel where
  Title : String
  Link : String
  Description : String
  Language : String
  LastBuildDate : Date
  Item : List Item
  deriving Repr

structure Entry where
  ID : String
  Title : String
  Updated : String
  deriving DecidableEq, Repr

structure Feed where
  Entry : List Entry
  deriving DecidableEq, Repr

def emptyItem : Item := ⟨"", "", "", ("" : String), "", [], [], "", "", "", ""⟩

def emptyChannel : Channel := ⟨"", "", "", "", ("" : String), []⟩

/-- Binding one child node into an `Item` under the struct tags of
src/unnamed/part_000: strings overwrite, slice fields append, anything
else is ignored. -/
def decodeItemChild (it : Item) : Xml → Item
  | .text _ => it
  | .elem tag attrs cs =>
    if tag = "title" then { it with Title := innerText cs }
    else if tag = "link" then { it with Link := innerText cs }
    else if tag = "comments" then { it with Comments := innerText cs }
    else if tag = "pubDate" then { it with PubDate := (innerText cs : String) }
    else if tag = "guid" then { it with GUID := innerText cs }
    else if tag = "category" then { it with Category := it.Category ++ [innerText cs] }
    else if tag = "enclosure" then
      { it with Enclosure := it.Enclosure ++ [⟨attrOr attrs "url", attrOr attrs "type"⟩] }
    else if tag = "description" then { it with Description := innerText cs }
    else if tag = "author" then { it with Author := innerText cs }
    else if tag = "content" then { it with Content := innerText cs }
    else if tag = "full-text" then { it with FullText := innerText cs }
    else it

def decodeItem (cs : List Xml) : Item := cs.foldl decodeItemChild emptyItem

/-- Binding one child node into a `Channel` (`Item []Item` appends a
freshly decoded item per `<item>` element, in document order). -/
def decodeChannelChild (c : Channel) : Xml → Channel
  | .text _ => c
  | .elem tag _ cs =>
    if tag = "title" then { c with Title := innerText cs }
    else if tag = "link" then { c with Link := innerText cs }
    else if tag = "description" then { c with Description := innerText cs }
    else if tag = "language" then { c with Language := innerText cs }
    else if tag = "lastBuildDate" then { c with LastBuildDate := (innerText cs : String) }
    else if tag = "item" then { c with Item := c.Item ++ [decodeItem cs] }
    else c

def decodeChannel (cs : List Xml) : Channel := cs.foldl decodeChannelChild emptyChannel

/-- One child of the `<rss>` envelope: a `<channel>` element is folded
into the `Channel` field, everything else is ignored. -/
def decodeRssChild (acc : Channel) : Xml → Channel
  | .elem tag _ ccs => if tag = "channel" then ccs.foldl decodeChannelChild acc else acc
  | .text _ => acc

/-- `ParseRegular` decodes into `struct{ Channel Channel xml:"channel" }`:
the root element (the `<rss>` envelope) is accepted whatever its name and
its `<channel>` children are folded into the single `Channel` field. -/
def decodeRssStruct : Xml → Channel
  | .text _ => emptyChannel
  | .elem _ _ cs => cs.foldl decodeRssChild emptyChannel

def decodeEntryChild (e : Entry) : Xml → Entry
  | .text _ => e
  | .elem tag _ cs =>
    if tag = "id" then { e with ID := innerText cs }
    else if tag = "title" then { e with Title := innerText cs }
    else if tag = "updated" then { e with Updated := innerText cs }
    else e

def decodeEntry (cs : List Xml) : Entry := cs.foldl decodeEntryChild ⟨"", "", ""⟩

def decodeFeedChild (f : Feed) : Xml → Feed
  | .text _ => f
  | .elem tag _ cs =>
    if tag = "entry" then { f with Entry := f.Entry ++ [decodeEntry cs] }
    else f

/-- `Atom` decodes `Feed{}` straight at the root `<feed>` element — no
envelope unwrapping. -/
def decodeFeedStruct : Xml → Feed
  | .text _ => ⟨[]⟩
  | .elem _ _ cs => cs.foldl decodeFeedChild ⟨[]⟩

/-! ### Errors, contexts, streams, responses -/

inductive GoError where
  | ctxCanceled
  | ctxDeadlineExceeded
  | xmlSyntax (msg : String)
  | readErr (msg : String)
  | emptyURL
  | badRequest (msg : String)
  | fetchFailed (msg : String)
  | httpStatus (code : Nat) (status : String)
  deriving DecidableEq, Repr

/-- `Error()` strings as the Go source produces them. -/
def GoError.message : GoError → String
  | .ctxCanceled => "context canceled"
  | .ctxDeadlineExceeded => "context deadline exceeded"
  | .xmlSyntax m => m
  | .readErr m => m
  | .emptyURL => "URL cannot be empty"
  | .badRequest m => "failed to create request: " ++ m
  | .fetchFailed m => "failed to fetch URL: " ++ m
  | .httpStatus code status => "HTTP " ++ toString code ++ ": " ++ status

/-- Why a context has already fired. -/
inductive CtxCause where
  | canceled
  | deadlineExceeded
  deriving DecidableEq, Repr

/-- `ctx.Err()` for a fired context. -/
def CtxCause.toError : CtxCause → GoError
  | .canceled => .ctxCanceled
  | .deadlineExceeded => .ctxDeadlineExceeded

/-- A context is either live (`none`) or has already fired: Go's
`select { case <-ctx.Done(): ...; default: }` observes exactly this. -/
def Ctx := Option CtxCause

/-- What decoding the byte stream up to a document tree yields: the tree,
or the tokenisation/read error (`xml.Decoder.Decode` fails exactly when
the stream is malformed XML or unreadable). -/
def Stream := Except GoError Xml

/-- `func ParseRegular(ctx context.Context, r io.Reader) (*Channel, error)`
(src/unnamed/part_000): fail-fast context check, then decode. -/
def ParseRegular (ctx : Ctx) (r : Stream) : Except GoError Channel :=
  match ctx with
  | some c => .error c.toError
  | none =>
    match r with
    | .error e => .error e
    | .ok root => .ok (decodeRssStruct root)

/-- Modelled from the spec: the repository's context-aware Atom reader
`ParseAtom` is called by the tests (src/rss_test.go) but its source file is
not among the provided sources; only the older, context-free `Atom`
(src/unnamed/part_001) is.  Per spec §4.4, ReadFeed performs the same
fail-fast cancellation check as ReadChannel and then decodes with the Atom
schema (bare `Feed` at the root). -/
def ParseAtom (ctx : Ctx) (r : Stream) : Except GoError Feed :=
  match ctx with
  | some c => .error c.toError
  | none =>
    match r with
    | .error e => .error e
    | .ok root => .ok (decodeFeedStruct root)

/-- An HTTP response: status data plus the body as a decodable stream. -/
structure HttpResponse where
  StatusCode : Nat
  Status : String
  Body : Stream

/-- `func Regular(ctx context.Context, resp *http.Response) (*Channel, error)`
(src/unnamed/part_000).  The second component counts how many times the
response body is closed: `defer resp.Body.Close()` runs exactly once, on
every exit path of the function. -/
def Regular (ctx : Ctx) (resp : HttpResponse) : Except GoError Channel × Nat :=
  match ParseRegular ctx resp.Body with
  | .error e => (.error e, 1)
  | .ok c => (.ok c, 1)

/-- `func Atom(resp *http.Response) (*Feed, error)`
(src/unnamed/part_001), with the same close accounting. -/
def Atom (resp : HttpResponse) : Except GoError Feed × Nat :=
  match resp.Body with
  | .error e => (.error e, 1)
  | .ok root => (.ok (decodeFeedStruct root), 1)

/-! ### The fetch path (src/rss.go, `ReadWithClient`) -/

structure Request where
  url : String
  headers : List (String × String)
  ctx : Ctx

/-- An HTTP client: `client.Do(req)`.  Callers substitute arbitrary
transports, so a client is just a function from request to outcome. -/
def Client := Request → Except GoError HttpResponse

/-- Control characters make `url.Parse` (and hence
`http.NewRequestWithContext`) fail; this is the request-constructor
rejection modelled here. -/
def hasCtl (url : String) : Bool :=
  url.data.any fun c => c.toNat < 32 || c.toNat = 127

def newRequestWithContext (ctx : Ctx) (url : String) : Except String Request :=
  if hasCtl url then .error "net/url: invalid control character in URL"
  else .ok ⟨url, [], ctx⟩

/-- `req.Header.Set` on the single header the source sets. -/
def setHeader (r : Request) (k v : String) : Request :=
  { r with headers := [(k, v)] }

def userAgent (reddit : Bool) : String :=
  if reddit then "go-rss:v1.0.0 (by /u/go-rss-user)" else "go-rss/1.0.0"

/-- `func ReadWithClient(ctx, url, client, reddit) (*http.Response, error)`:
empty-URL validation, request construction, user-agent selection,
`client.Do`, then the 2xx status check which closes the body and fails on
anything else.  The second component counts closes of the fetched
response body performed inside the function (the success path hands the
open body to the caller). -/
def ReadWithClient (ctx : Ctx) (url : String) (client : Client) (reddit : Bool) :
    Except GoError HttpResponse × Nat :=
  if url = "" then (.error .emptyURL, 0)
  else
    match newRequestWithContext ctx url with
    | .error e => (.error (.badRequest e), 0)
    | .ok req =>
      let req2 := setHeader req "user-agent" (userAgent reddit)
      match client req2 with
      | .error e => (.error (.fetchFailed e.message), 0)
      | .ok response =>
        if response.StatusCode < 200 || 300 ≤ response.StatusCode then
          (.error (.httpStatus response.StatusCode response.Status), 1)
        else (.ok response, 0)

/-! ### Derived notions used by the claims -/

/-- The child lists of the `<item>` elements among `cs`, in document
order. -/
def itemLists (cs : List Xml) : List (List Xml) :=
  cs.filterMap fun x =>
    match x with
    | .elem tag _ ics => if tag = "item" then some ics else none
    | .text _ => none

/-- The child lists of the `<entry>` elements among `cs`, in document
order. -/
def entryLists (cs : List Xml) : List (List Xml) :=
  cs.filterMap fun x =>
    match x with
    | .elem tag _ ecs => if tag = "entry" then some ecs else none
    | .text _ => none

/-- Tags bound by the `Channel` struct. -/
def channelTags : List String :=
  ["title", "link", "description", "language", "lastBuildDate", "item"]

/-- Tags bound by the `Item` struct. -/
def itemTags : List String :=
  ["title", "link", "comments", "pubDate", "guid", "category", "enclosure",
    "description", "author", "content", "full-text"]

/-- Does this node have the given element tag? -/
def isElemOf (tag : String) : Xml → Bool
  | .elem t _ _ => t = tag
  | .text _ => false

/-- `.ok` test for a date parse outcome. -/
def isOkB : Except String GoTime → Bool
  | .ok _ => true
  | .error _ => false

/-- Agreement on every field that determines the instant (everything but
the zone name). -/
def sameInstant (a b : GoTime) : Prop :=
  a.year = b.year ∧ a.month = b.month ∧ a.day = b.day ∧ a.hour = b.hour ∧
    a.minute = b.minute ∧ a.second = b.second ∧ a.offset = b.offset

/-- Tokens whose formatted output re-parses to the very field values it
was printed from: every token except the zone-name token (whose formatted
fallback for unnamed zones is numeric and does not re-parse) and the
two-digit year (whose parse re-maps the century). -/
def goodTok : LayoutTok → Bool
  | .nameTZ => false
  | .yr2 => false
  | _ => true

/-- The parse-state effect of re-parsing the formatted output of one
token of `t`. -/
def applyTok (t : GoTime) (st : PState) : LayoutTok → PState
  | .lit _ => st
  | .wday => st
  | .day2 => { st with day := some t.day }
  | .mon3 => { st with month := some t.month }
  | .month2 => { st with month := some t.month }
  | .yr2 =>
    { st with year := some (if 69 ≤ t.year % 100 then 1900 + t.year % 100
        else 2000 + t.year % 100) }
  | .yr4 => { st with year := some t.year }
  | .hh24 => { st with hour := some t.hour }
  | .min2 => { st with minute := some t.minute }
  | .sec2 => { st with second := some t.second }
  | .numTZ => { st with zoff := some t.offset }
  | .nameTZ => { st with zlit := some t.zname }
  | .isoTZ =>
    if t.offset = 0 then { st with zlit := some "UTC" } else { st with zoff := some t.offset }

/-- Field ranges every successful `goTimeParse` guarantees: the
month/day/hour/minute/second bounds come from `finalize`'s checks, the
year bound from the year tokens (four fixed digits, or a two-digit year
mapped into 1969..2068), and the offset properties from the offset tokens
(sign plus two-digit hour and minute fields, whole minutes, magnitude at
most 99 h 99 min). -/
def validRanges (t : GoTime) : Prop :=
  t.year < 10000 ∧ 1 ≤ t.month ∧ t.month ≤ 12 ∧ 1 ≤ t.day ∧
    t.day ≤ daysInMonth t.year t.month ∧ t.hour < 24 ∧ t.minute < 60 ∧
    t.second < 60 ∧ t.offset % 60 = 0 ∧ -362400 < t.offset ∧ t.offset < 362400

/-- Invariant maintained by every parse step on the fields `finalize` does
not range-check: a year, once set, came from a year token and is below
10000; an offset, once set, came from an offset token: whole minutes, at
most 99 h 99 min in magnitude. -/
def stInv (st : PState) : Prop :=
  (∀ y, st.year = some y → y < 10000) ∧
    (∀ z, st.zoff = some z → z % 60 = 0 ∧ -362400 < z ∧ z < 362400)

/-! ## Helper lemmas about the XML field binding -/

theorem decodeChannelChild_item (c : Channel) (x : Xml) :
    (decodeChannelChild c x).Item =
      c.Item ++ (itemLists [x]).map decodeItem := by
  cases x with
  | text s => simp [decodeChannelChild, itemLists]
  | elem tag a ccs =>
    by_cases h : tag = "item"
    · subst h
      simp [decodeChannelChild, itemLists]
    · simp only [decodeChannelChild]
      split_ifs <;> simp_all [itemLists]

theorem foldl_channel_item (cs : List Xml) (acc : Channel) :
    (cs.foldl decodeChannelChild acc).Item = acc.Item ++ (itemLists cs).map decodeItem := by
  induction cs generalizing acc with
  | nil => simp [itemLists]
  | cons x rest ih =>
    rw [List.foldl_cons, ih, decodeChannelChild_item]
    cases x with
    | text s => simp [itemLists]
    | elem tag a ccs =>
      by_cases h : tag = "item" <;> simp [itemLists, h]

theorem decodeFeedChild_entry (f : Feed) (x : Xml) :
    (decodeFeedChild f x).Entry = f.Entry ++ (entryLists [x]).map decodeEntry := by
  cases x with
  | text s => simp [decodeFeedChild, entryLists]
  | elem tag a ecs =>
    by_cases h : tag = "entry"
    · subst h
      simp [decodeFeedChild, entryLists]
    · simp [decodeFeedChild, entryLists, h]

theorem foldl_feed_entry (cs : List Xml) (acc : Feed) :
    (cs.foldl decodeFeedChild acc).Entry = acc.Entry ++ (entryLists cs).map decodeEntry := by
  induction cs generalizing acc with
  | nil => simp [entryLists]
  | cons x rest ih =>
    rw [List.foldl_cons, ih, decodeFeedChild_entry]
    cases x with
    | text s => simp [entryLists]
    | elem tag a ecs =>
      by_cases h : tag = "entry" <;> simp [entryLists, h]

theorem foldl_rss_no_channel (cs : List Xml) :
    ∀ acc : Channel, (cs.all fun x => !(isElemOf "channel" x)) = true →
      cs.foldl decodeRssChild acc = acc := by
  induction cs with
  | nil => intro acc _; rfl
  | cons x rest ih =>
    intro acc h
    simp only [List.all_cons, Bool.and_eq_true] at h
    rw [List.foldl_cons]
    have hx : decodeRssChild acc x = acc := by
      cases x with
      | text s => rfl
      | elem tag a ccs =>
        have h1 := h.1
        simp only [isElemOf, Bool.not_eq_true'] at h1
        have : tag ≠ "channel" := by
          intro hc
          rw [hc] at h1
          simp at h1
        simp [decodeRssChild, this]
    rw [hx]
    exact ih acc h.2

theorem entryLists_nil_of_no_entry (cs : List Xml)
    (h : (cs.all fun x => !(isElemOf "entry" x)) = true) :
    entryLists cs = [] := by
  induction cs with
  | nil => rfl
  | cons x rest ih =>
    simp only [List.all_cons, Bool.and_eq_true] at h
    cases x with
    | text s => simpa [entryLists] using ih h.2
    | elem tag a ecs =>
      have := h.1
      simp only [isElemOf, Bool.not_eq_true'] at this
      have hne : tag ≠ "entry" := by
        intro hc
        rw [hc] at this
        simp at this
      simpa [entryLists, hne] using ih h.2

/-! ## Round-trip lemmas for the date layouts -/

theorem isDigitChar_digitChar (n : Nat) (h : n < 10) : isDigitChar (digitChar n) = true := by
  interval_cases n <;> decide

theorem digVal_digitChar (n : Nat) (h : n < 10) : digVal (digitChar n) = n := by
  interval_cases n <;> decide

theorem digVal_lt (c : Char) (h : isDigitChar c = true) : digVal c < 10 := by
  unfold isDigitChar at h
  simp only [Bool.and_eq_true, decide_eq_true_eq] at h
  unfold digVal
  omega

theorem take2_pad2 (n : Nat) (h : n < 100) (rest : List Char) :
    take2 (pad2 n ++ rest) = some (n, rest) := by
  have h1 : n / 10 < 10 := by omega
  have h2 : n % 10 < 10 := by omega
  simp [pad2, h, take2, isDigitChar_digitChar _ h1, isDigitChar_digitChar _ h2,
    digVal_digitChar _ h1, digVal_digitChar _ h2]
  omega

theorem take4_pad4 (n : Nat) (h : n < 10000) (rest : List Char) :
    take4 (pad4 n ++ rest) = some (n, rest) := by
  have h1 : n / 1000 % 10 < 10 := by omega
  have h2 : n / 100 % 10 < 10 := by omega
  have h3 : n / 10 % 10 < 10 := by omega
  have h4 : n % 10 < 10 := by omega
  simp [pad4, h, take4, isDigitChar_digitChar _ h1, isDigitChar_digitChar _ h2,
    isDigitChar_digitChar _ h3, isDigitChar_digitChar _ h4, digVal_digitChar _ h1,
    digVal_digitChar _ h2, digVal_digitChar _ h3, digVal_digitChar _ h4]
  omega

theorem take1or2_pad2 (n : Nat) (h : n < 100) (rest : List Char) :
    take1or2 (pad2 n ++ rest) = some (n, rest) := by
  have h1 : n / 10 < 10 := by omega
  have h2 : n % 10 < 10 := by omega
  simp [pad2, h, take1or2, isDigitChar_digitChar _ h1, isDigitChar_digitChar _ h2,
    digVal_digitChar _ h1, digVal_digitChar _ h2]
  omega

theorem take2_lt (s : List Char) (n : Nat) (r : List Char)
    (h : take2 s = some (n, r)) : n < 100 := by
  unfold take2 at h
  split at h
  · split_ifs at h with hd
    simp only [Bool.and_eq_true] at hd
    have h1 := digVal_lt _ hd.1
    have h2 := digVal_lt _ hd.2
    have h3 := Option.some.inj h
    injection h3 with h4 h5
    omega
  · exact Option.noConfusion h

theorem take4_lt (s : List Char) (n : Nat) (r : List Char)
    (h : take4 s = some (n, r)) : n < 10000 := by
  unfold take4 at h
  split at h
  · split_ifs at h with hd
    simp only [Bool.and_eq_true] at hd
    have h1 := digVal_lt _ hd.1.1.1
    have h2 := digVal_lt _ hd.1.1.2
    have h3 := digVal_lt _ hd.1.2
    have h4 := digVal_lt _ hd.2
    have h5 := Option.some.inj h
    injection h5 with h6 h7
    omega
  · exact Option.noConfusion h

theorem findName_wday (k : Nat) (h : k < 7) (rest : List Char) :
    findName wdayNames 0 ((wdayName k).data ++ rest) = some (k, rest) := by
  interval_cases k <;> rfl

theorem findName_month (m : Nat) (h1 : 1 ≤ m) (h2 : m ≤ 12) (rest : List Char) :
    findName monthNames 0 ((monthName m).data ++ rest) = some (m - 1, rest) := by
  interval_cases m <;> rfl

theorem weekday_lt (y m d : Nat) : weekday y m d < 7 := by
  unfold weekday
  have h1 : 0 ≤ (daysFromCivil (y : Int) m d + 4) % 7 :=
    Int.emod_nonneg _ (by decide)
  have h2 : (daysFromCivil (y : Int) m d + 4) % 7 < 7 :=
    Int.emod_lt_of_pos _ (by decide)
  omega

theorem takeColon_false (s : List Char) : takeColon false s = some s := by
  cases s <;> rfl

theorem takeColon_mid (colon : Bool) (x : List Char) :
    takeColon colon ((if colon then [':'] else []) ++ x) = some x := by
  cases colon with
  | false => simp [takeColon_false]
  | true => simp [takeColon]

theorem daysInMonth_le (y m : Nat) : daysInMonth y m ≤ 31 := by
  unfold daysInMonth
  split_ifs <;> omega

theorem takeOffset_facts (colon : Bool) (s : List Char) (z : Int) (r : List Char)
    (h : takeOffset colon s = some (z, r)) :
    z % 60 = 0 ∧ -362400 < z ∧ z < 362400 := by
  unfold takeOffset at h
  split at h
  · exact Option.noConfusion h
  · split at h
    · exact Option.noConfusion h
    · rename_i hh s2 heq2
      split at h
      · exact Option.noConfusion h
      · split at h
        · exact Option.noConfusion h
        · rename_i neg s1 heq1 s3 heq3 mm s4 heq4
          have hhlt := take2_lt _ _ _ heq2
          have hmlt := take2_lt _ _ _ heq4
          have h5 := Option.some.inj h
          injection h5 with h6 h7
          subst h6
          cases neg <;> simp <;> omega

theorem takeOffset_pad (neg : Bool) (A B : Nat) (hA1 : A < 100) (hB1 : B < 100)
    (colon : Bool) (cont : List Char) :
    takeOffset colon (((if neg then '-' else '+') ::
        (pad2 A ++ (if colon then [':'] else []) ++ pad2 B)) ++ cont)
      = some (if neg then -(((A * 3600 + B * 60 : Nat)) : Int)
          else (((A * 3600 + B * 60 : Nat)) : Int), cont) := by
  cases neg <;>
    simp [takeOffset, takeSign, List.append_assoc, take2_pad2 _ hA1, takeColon_mid,
      take2_pad2 _ hB1]

theorem takeOffset_fmtOffset (off : Int) (colon : Bool) (h1 : off % 60 = 0)
    (h2 : -360000 < off) (h3 : off < 360000) (cont : List Char) :
    takeOffset colon (fmtOffset off colon ++ cont) = some (off, cont) := by
  have hA1 : off.natAbs / 60 / 60 < 100 := by omega
  have hB1 : off.natAbs / 60 % 60 < 100 := by omega
  have hsign : signChar off = if decide (off < 0) then '-' else '+' := by
    unfold signChar
    by_cases h : off < 0 <;> simp [h]
  rw [show fmtOffset off colon = signChar off :: (pad2 (off.natAbs / 60 / 60) ++
      (if colon then [':'] else []) ++ pad2 (off.natAbs / 60 % 60)) from rfl, hsign]
  rw [takeOffset_pad (decide (off < 0)) _ _ hA1 hB1 colon cont]
  simp only [Option.some.injEq, Prod.mk.injEq]
  refine ⟨?_, trivial⟩
  by_cases hneg : off < 0
  · rw [if_pos (decide_eq_true hneg)]
    omega
  · rw [if_neg (by simp [hneg])]
    omega

theorem parseTok_fmtTok (t : GoTime) (hv : validRanges t)
    (hoz : -360000 < t.offset ∧ t.offset < 360000) (st : PState) (tok : LayoutTok)
    (hg : goodTok tok = true) (cont : List Char) :
    parseTok tok st (fmtTok t tok ++ cont) = .ok (applyTok t st tok, cont) := by
  obtain ⟨hz1, hz2⟩ := hoz
  obtain ⟨hy, hm1, hm2, hd1, hd2, hh24, hmi, hsec, ho1, ho2, ho3⟩ := hv
  cases tok with
  | lit c => simp [fmtTok, parseTok, applyTok]
  | wday =>
    simp [fmtTok, parseTok, applyTok,
      findName_wday _ (weekday_lt t.year t.month t.day) cont]
  | day2 =>
    have hb := daysInMonth_le t.year t.month
    simp [fmtTok, parseTok, applyTok, take2_pad2 t.day (by omega) cont]
  | mon3 =>
    have hmm : t.month - 1 + 1 = t.month := by omega
    simp [fmtTok, parseTok, applyTok, findName_month t.month hm1 hm2 cont, hmm]
  | month2 => simp [fmtTok, parseTok, applyTok, take2_pad2 t.month (by omega) cont]
  | yr2 => simp [goodTok] at hg
  | yr4 => simp [fmtTok, parseTok, applyTok, take4_pad4 t.year hy cont]
  | hh24 => simp [fmtTok, parseTok, applyTok, take1or2_pad2 t.hour (by omega) cont]
  | min2 => simp [fmtTok, parseTok, applyTok, take2_pad2 t.minute (by omega) cont]
  | sec2 => simp [fmtTok, parseTok, applyTok, take2_pad2 t.second (by omega) cont]
  | numTZ =>
    simp [fmtTok, parseTok, applyTok, takeOffset_fmtOffset t.offset false ho1 hz1 hz2 cont]
  | nameTZ => simp [goodTok] at hg
  | isoTZ =>
    by_cases hz : t.offset = 0
    · simp [fmtTok, parseTok, applyTok, hz]
    · have hsign : signChar t.offset ≠ 'Z' := by
        unfold signChar
        split <;> decide
      have hoff := takeOffset_fmtOffset t.offset true ho1 hz1 hz2 cont
      simp only [fmtOffset, List.cons_append, List.append_assoc] at hoff
      simp at hoff
      simp [fmtTok, parseTok, applyTok, hz, fmtOffset, List.cons_append,
        List.append_assoc, hsign, hoff]

theorem parseChunks_fmtChunks (toks : List LayoutTok) (t : GoTime) (hv : validRanges t)
    (hoz : -360000 < t.offset ∧ t.offset < 360000) :
    ∀ st : PState, toks.all goodTok = true →
      parseChunks toks st (fmtChunks toks t) = .ok (toks.foldl (applyTok t) st) := by
  induction toks with
  | nil => intro st _; rfl
  | cons tok rest ih =>
    intro st hall
    simp only [List.all_cons, Bool.and_eq_true] at hall
    have hstep := parseTok_fmtTok t hv hoz st tok hall.1 (fmtChunks rest t)
    rw [show fmtChunks (tok :: rest) t = fmtTok t tok ++ fmtChunks rest t from rfl]
    simp only [parseChunks, hstep]
    rw [List.foldl_cons]
    exact ih _ hall.2

theorem stInv_init : stInv ⟨none, none, none, none, none, none, none, none⟩ :=
  ⟨fun _ hy => Option.noConfusion hy, fun _ hz => Option.noConfusion hz⟩

theorem parseTok_inv (tok : LayoutTok) (st : PState) (s : List Char) (st2 : PState)
    (s2 : List Char) (hst : stInv st) (h : parseTok tok st s = .ok (st2, s2)) :
    stInv st2 := by
  cases tok with
  | lit c =>
    simp only [parseTok] at h
    split at h
    · split_ifs at h
      have h3 := Except.ok.inj h
      injection h3 with h4 h5
      subst h4
      exact hst
    · exact Except.noConfusion h
  | wday =>
    simp only [parseTok] at h
    split at h
    · have h3 := Except.ok.inj h
      injection h3 with h4 h5
      subst h4
      exact hst
    · exact Except.noConfusion h
  | day2 =>
    simp only [parseTok] at h
    split at h
    · have h3 := Except.ok.inj h
      injection h3 with h4 h5
      subst h4
      exact ⟨hst.1, hst.2⟩
    · exact Except.noConfusion h
  | mon3 =>
    simp only [parseTok] at h
    split at h
    · have h3 := Except.ok.inj h
      injection h3 with h4 h5
      subst h4
      exact ⟨hst.1, hst.2⟩
    · exact Except.noConfusion h
  | month2 =>
    simp only [parseTok] at h
    split at h
    · have h3 := Except.ok.inj h
      injection h3 with h4 h5
      subst h4
      exact ⟨hst.1, hst.2⟩
    · exact Except.noConfusion h
  | yr2 =>
    simp only [parseTok] at h
    split at h
    · rename_i n rest heq
      have h3 := Except.ok.inj h
      injection h3 with h4 h5
      subst h4
      have hn := take2_lt _ _ _ heq
      refine ⟨?_, hst.2⟩
      intro y hy
      have h6 := Option.some.inj hy
      split at h6 <;> omega
    · exact Except.noConfusion h
  | yr4 =>
    simp only [parseTok] at h
    split at h
    · rename_i n rest heq
      have h3 := Except.ok.inj h
      injection h3 with h4 h5
      subst h4
      have hn := take4_lt _ _ _ heq
      refine ⟨?_, hst.2⟩
      intro y hy
      have h6 := Option.some.inj hy
      omega
    · exact Except.noConfusion h
  | hh24 =>
    simp only [parseTok] at h
    split at h
    · have h3 := Except.ok.inj h
      injection h3 with h4 h5
      subst h4
      exact ⟨hst.1, hst.2⟩
    · exact Except.noConfusion h
  | min2 =>
    simp only [parseTok] at h
    split at h
    · have h3 := Except.ok.inj h
      injection h3 with h4 h5
      subst h4
      exact ⟨hst.1, hst.2⟩
    · exact Except.noConfusion h
  | sec2 =>
    simp only [parseTok] at h
    split at h
    · have h3 := Except.ok.inj h
      injection h3 with h4 h5
      subst h4
      exact ⟨hst.1, hst.2⟩
    · exact Except.noConfusion h
  | numTZ =>
    simp only [parseTok] at h
    split at h
    · rename_i z rest heq
      have h3 := Except.ok.inj h
      injection h3 with h4 h5
      subst h4
      refine ⟨hst.1, ?_⟩
      intro z' hz'
      have h6 := Option.some.inj hz'
      subst h6
      exact takeOffset_facts _ _ _ _ heq
    · exact Except.noConfusion h
  | nameTZ =>
    simp only [parseTok] at h
    split at h
    · have h3 := Except.ok.inj h
      injection h3 with h4 h5
      subst h4
      exact ⟨hst.1, hst.2⟩
    · exact Except.noConfusion h
  | isoTZ =>
    simp only [parseTok] at h
    split at h
    · split_ifs at h with hZ
      · have h3 := Except.ok.inj h
        injection h3 with h4 h5
        subst h4
        exact ⟨hst.1, hst.2⟩
      · split at h
        · rename_i z rest2 heq
          have h3 := Except.ok.inj h
          injection h3 with h4 h5
          subst h4
          refine ⟨hst.1, ?_⟩
          intro z' hz'
          have h6 := Option.some.inj hz'
          subst h6
          exact takeOffset_facts _ _ _ _ heq
        · exact Except.noConfusion h
    · exact Except.noConfusion h

theorem parseChunks_inv (toks : List LayoutTok) :
    ∀ (st : PState) (s : List Char) (st2 : PState), stInv st →
      parseChunks toks st s = .ok st2 → stInv st2 := by
  induction toks with
  | nil =>
    intro st s st2 hst h
    cases s with
    | nil =>
      have h2 := Except.ok.inj h
      subst h2
      exact hst
    | cons c cs => exact Except.noConfusion h
  | cons tok rest ih =>
    intro st s st2 hst h
    simp only [parseChunks] at h
    split at h
    · exact Except.noConfusion h
    · rename_i st3 s3 heq
      exact ih st3 s3 st2 (parseTok_inv tok st s st3 s3 hst heq) h

theorem finalize_validRanges (st : PState) (t : GoTime) (hinv : stInv st)
    (h : finalize st = .ok t) : validRanges t := by
  have hyb : st.year.getD 0 < 10000 := by
    cases hyc : st.year with
    | none => simp
    | some y => simpa using hinv.1 y hyc
  unfold finalize at h
  split_ifs at h with h1 h2 h3 h4 h5
  split at h
  · rename_i z hz
    obtain ⟨hz1, hz2, hz3⟩ := hinv.2 z hz
    have h9 := Except.ok.inj h
    subst h9
    simp only [validRanges]
    omega
  · split at h
    · rename_i n hn
      have h9 := Except.ok.inj h
      subst h9
      simp only [validRanges]
      omega
    · have h9 := Except.ok.inj h
      subst h9
      simp only [validRanges]
      omega

theorem goTimeParse_validRanges (layout value : String) (t : GoTime)
    (h : goTimeParse layout value = .ok t) : validRanges t := by
  unfold goTimeParse at h
  split at h
  · exact absurd h (by simp)
  · rename_i st heqP
    split at h
    · exact absurd h (by simp)
    · rename_i t0 heqF
      have h2 := Except.ok.inj h
      subst h2
      exact finalize_validRanges _ _ (parseChunks_inv _ _ _ _ stInv_init heqP) heqF

theorem DateParse_validRanges (d : Date) (t : GoTime) (h : Date.Parse d = .ok t) :
    validRanges t := by
  unfold Date.Parse at h
  split at h
  · rename_i t0 heq
    have h2 := Except.ok.inj h
    subst h2
    exact goTimeParse_validRanges _ _ _ heq
  · split at h
    · rename_i t0 heq
      have h2 := Except.ok.inj h
      subst h2
      exact goTimeParse_validRanges _ _ _ heq
    · exact goTimeParse_validRanges _ _ _ h

theorem finalize_allset (y m d h mi s : Nat) (z : Int)
    (hm1 : 1 ≤ m) (hm2 : m ≤ 12) (hd1 : 1 ≤ d)
    (hd2 : d ≤ daysInMonth y m) (hh : h < 24) (hmi : mi < 60) (hs : s < 60) :
    finalize ⟨some y, some m, some d, some h, some mi, some s, some z, none⟩
      = .ok ⟨y, m, d, h, mi, s, z, ""⟩ := by
  unfold finalize
  simp only [Option.getD_some]
  rw [if_neg (by omega), if_neg (by omega), if_neg (by omega), if_neg (by omega),
    if_neg (by omega)]

theorem finalize_allset_zlit (y m d h mi s : Nat) (n : String)
    (hm1 : 1 ≤ m) (hm2 : m ≤ 12) (hd1 : 1 ≤ d)
    (hd2 : d ≤ daysInMonth y m) (hh : h < 24) (hmi : mi < 60) (hs : s < 60) :
    finalize ⟨some y, some m, some d, some h, some mi, some s, none, some n⟩
      = .ok ⟨y, m, d, h, mi, s, 0, n⟩ := by
  unfold finalize
  simp only [Option.getD_some]
  rw [if_neg (by omega), if_neg (by omega), if_neg (by omega), if_neg (by omega),
    if_neg (by omega)]

theorem fmtChunks_sameInstant (toks : List LayoutTok) (t t2 : GoTime)
    (hs : sameInstant t2 t) (h : toks.all goodTok = true) :
    fmtChunks toks t2 = fmtChunks toks t := by
  induction toks with
  | nil => rfl
  | cons tok rest ih =>
    simp only [List.all_cons, Bool.and_eq_true] at h
    rw [show fmtChunks (tok :: rest) t2 = fmtTok t2 tok ++ fmtChunks rest t2 from rfl,
      show fmtChunks (tok :: rest) t = fmtTok t tok ++ fmtChunks rest t from rfl, ih h.2]
    obtain ⟨hy, hm, hd, hh, hmi, hs2, ho⟩ := hs
    cases tok <;> simp_all [fmtTok, goodTok]

theorem goFormat_sameInstant (L : String) (t t2 : GoTime) (hs : sameInstant t2 t)
    (h : (layoutChunks L).all goodTok = true) : goFormat L t2 = goFormat L t := by
  unfold goFormat
  exact congrArg String.mk (fmtChunks_sameInstant _ _ _ hs h)

theorem goTimeParse_goFormat (L : String) (t t2 : GoTime) (hv : validRanges t)
    (hoz : -360000 < t.offset ∧ t.offset < 360000)
    (hall : (layoutChunks L).all goodTok = true)
    (hfin : finalize ((layoutChunks L).foldl (applyTok t) {}) = .ok t2) :
    goTimeParse L (goFormat L t) = .ok t2 := by
  unfold goTimeParse
  rw [show (goFormat L t).data = fmtChunks (layoutChunks L) t from rfl]
  rw [parseChunks_fmtChunks _ t hv hoz _ hall]
  simp [hfin]

theorem foldl_applyTok_wp (t : GoTime) :
    (layoutChunks wordpressDateFormat).foldl (applyTok t) {}
      = ⟨some t.year, some t.month, some t.day, some t.hour, some t.minute, some t.second,
          some t.offset, none⟩ := rfl

theorem foldl_applyTok_rfc3339_zero (t : GoTime) (hz : t.offset = 0) :
    (layoutChunks RFC3339).foldl (applyTok t) {}
      = ⟨some t.year, some t.month, some t.day, some t.hour, some t.minute, some t.second,
          none, some "UTC"⟩ := by
  have hlc : layoutChunks RFC3339 = [.yr4, .lit '-', .month2, .lit '-', .day2, .lit 'T',
      .hh24, .lit ':', .min2, .lit ':', .sec2, .isoTZ] := rfl
  rw [hlc]
  simp only [List.foldl_cons, List.foldl_nil, applyTok, if_pos hz]

theorem foldl_applyTok_rfc3339_off (t : GoTime) (hz : ¬ t.offset = 0) :
    (layoutChunks RFC3339).foldl (applyTok t) {}
      = ⟨some t.year, some t.month, some t.day, some t.hour, some t.minute, some t.second,
          some t.offset, none⟩ := by
  have hlc : layoutChunks RFC3339 = [.yr4, .lit '-', .month2, .lit '-', .day2, .lit 'T',
      .hh24, .lit ':', .min2, .lit ':', .sec2, .isoTZ] := rfl
  rw [hlc]
  simp only [List.foldl_cons, List.foldl_nil, applyTok, if_neg hz]

/-! ## Claim theorems -/

/-- C1: decoding a well-formed RSS 2.0 document (`<rss>` envelope with one
`<channel>` holding N `<item>` elements) through `ParseRegular` succeeds
and yields a `Channel` whose `Item` list is the document-order map over
exactly those N item elements; decoding a well-formed Atom document with N
`<entry>` elements through the `Atom` decoder yields a `Feed` whose
`Entry` list is the document-order map over exactly those N entry
elements.  The RSS decoder unwraps the envelope; the Atom decoder binds
the root `<feed>` element directly. -/
theorem C1_decode_item_entry_counts (ra ca fa : List (String × String))
    (cs fcs : List Xml) :
    ParseRegular none (.ok (.elem "rss" ra [.elem "channel" ca cs]))
        = .ok (decodeRssStruct (.elem "rss" ra [.elem "channel" ca cs]))
    ∧ (decodeRssStruct (.elem "rss" ra [.elem "channel" ca cs])).Item
        = (itemLists cs).map decodeItem
    ∧ (decodeRssStruct (.elem "rss" ra [.elem "channel" ca cs])).Item.length
        = (itemLists cs).length
    ∧ decodeFeedStruct (.elem "feed" fa fcs) = ⟨(entryLists fcs).map decodeEntry⟩
    ∧ (decodeFeedStruct (.elem "feed" fa fcs)).Entry.length = (entryLists fcs).length
    ∧ ∀ (code : Nat) (st : String),
        Atom ⟨code, st, .ok (.elem "feed" fa fcs)⟩
          = (.ok ⟨(entryLists fcs).map decodeEntry⟩, 1) := by
  have hch : (decodeRssStruct (.elem "rss" ra [.elem "channel" ca cs])).Item
      = (itemLists cs).map decodeItem := by
    show ((([Xml.elem "channel" ca cs]).foldl decodeRssChild emptyChannel)).Item
        = (itemLists cs).map decodeItem
    simp only [List.foldl_cons, List.foldl_nil, decodeRssChild, if_true]
    rw [foldl_channel_item]
    rfl
  have hfd : decodeFeedStruct (.elem "feed" fa fcs) = ⟨(entryLists fcs).map decodeEntry⟩ := by
    show Feed.mk ((decodeFeedStruct (.elem "feed" fa fcs)).Entry) = _
    rw [show (decodeFeedStruct (.elem "feed" fa fcs)).Entry
        = (fcs.foldl decodeFeedChild ⟨[]⟩).Entry from rfl, foldl_feed_entry]
    rfl
  refine ⟨rfl, hch, by rw [hch]; simp, hfd, by rw [hfd]; simp, fun code st => ?_⟩
  show (Except.ok (decodeFeedStruct (.elem "feed" fa fcs)), 1) = _
  rw [hfd]

/-- C3: a context that has already fired makes both decode operations
(`ParseRegular`, and the Atom counterpart `ParseAtom`) fail immediately
with exactly the context's own cancellation error, and the byte stream is
never read (the result does not depend on the stream at all). -/
theorem C3_canceled_ctx_fail_fast (c : CtxCause) (s s2 : Stream) :
    ParseRegular (some c) s = .error c.toError
    ∧ ParseRegular (some c) s = ParseRegular (some c) s2
    ∧ ParseAtom (some c) s = .error c.toError
    ∧ ParseAtom (some c) s = ParseAtom (some c) s2 :=
  ⟨rfl, rfl, rfl, rfl⟩

/-- C9: the response-owning readers (`Regular` with a context, and the
Atom-side `Atom`) close the response body exactly once on every exit path:
the close count is 1 whatever the context state and whatever the body
stream holds, and the returned value is exactly the stream-based decode
result. -/
theorem C9_response_closed_exactly_once (ctx : Ctx) (resp : HttpResponse) :
    (Regular ctx resp).2 = 1
    ∧ (Regular ctx resp).1 = ParseRegular ctx resp.Body
    ∧ (Atom resp).2 = 1 := by
  refine ⟨?_, ?_, ?_⟩
  · unfold Regular
    cases h : ParseRegular ctx resp.Body <;> simp
  · unfold Regular
    cases h : ParseRegular ctx resp.Body <;> simp
  · unfold Atom
    cases h : resp.Body <;> simp

/-- C5: decoding fails only when the stream itself is bad: on any
well-formed document tree the decode succeeds outright (in particular no
date string, however unparseable, is ever parsed or rejected during
decode — `pubDate` character data is stored verbatim in the opaque `Date`
field), decode failure occurs exactly when the stream is malformed or
unreadable, and elements whose tags are bound by no field are silently
ignored at both channel and item level. -/
theorem C5_decode_fails_only_on_bad_stream :
    (∀ root : Xml, ParseRegular none (.ok root) = .ok (decodeRssStruct root))
    ∧ (∀ (s : Stream) (e : GoError), ParseRegular none s = .error e ↔ s = .error e)
    ∧ (∀ (c : Channel) (tag : String) (a : List (String × String)) (cs : List Xml),
        tag ∉ channelTags → decodeChannelChild c (.elem tag a cs) = c)
    ∧ (∀ (it : Item) (tag : String) (a : List (String × String)) (cs : List Xml),
        tag ∉ itemTags → decodeItemChild it (.elem tag a cs) = it)
    ∧ (∀ (it : Item) (a : List (String × String)) (s : String),
        decodeItemChild it (.elem "pubDate" a [.text s]) = { it with PubDate := (s : String) }) := by
  refine ⟨fun root => rfl, ?_, ?_, ?_, ?_⟩
  · intro s e
    match s with
    | .error e2 =>
      constructor
      · intro h
        have h2 : e2 = e := Except.error.inj h
        show (Except.error e2 : Stream) = .error e
        rw [h2]
      · intro h
        have h2 : e2 = e := Except.error.inj h
        show (Except.error e2 : Except GoError Channel) = .error e
        rw [h2]
    | .ok root => simp [ParseRegular]
  · intro c tag a cs h
    simp only [channelTags, List.mem_cons, List.not_mem_nil, or_false, not_or] at h
    obtain ⟨h1, h2, h3, h4, h5, h6⟩ := h
    simp [decodeChannelChild, h1, h2, h3, h4, h5, h6]
  · intro it tag a cs h
    simp only [itemTags, List.mem_cons, List.not_mem_nil, or_false, not_or] at h
    obtain ⟨h1, h2, h3, h4, h5, h6, h7, h8, h9, h10, h11⟩ := h
    simp [decodeItemChild, h1, h2, h3, h4, h5, h6, h7, h8, h9, h10, h11]
  · intro it a s
    simp [decodeItemChild, innerText]

/-- C5 witness: a decode over a document whose only date is unparseable
and which carries an unknown element still succeeds, and the unknown tag
is ignored. -/
theorem C5_decode_fails_only_on_bad_stream_witness :
    ParseRegular none (.ok (.elem "rss" []
        [.elem "channel" [] [.elem "item" [] [.elem "pubDate" [] [.text "not a date"]],
          .elem "wibble" [] []]]))
      = .ok (decodeRssStruct (.elem "rss" []
        [.elem "channel" [] [.elem "item" [] [.elem "pubDate" [] [.text "not a date"]],
          .elem "wibble" [] []]]))
    ∧ decodeChannelChild emptyChannel (.elem "wibble" [] []) = emptyChannel
    ∧ decodeItemChild emptyItem (.elem "wibble" [] []) = emptyItem
    ∧ decodeItemChild emptyItem (.elem "pubDate" [] [.text "not a date"])
        = { emptyItem with PubDate := ("not a date" : String) } := by
  refine ⟨C5_decode_fails_only_on_bad_stream.1 _, ?_, ?_, ?_⟩
  · exact C5_decode_fails_only_on_bad_stream.2.2.1 emptyChannel "wibble" [] [] (by decide)
  · exact C5_decode_fails_only_on_bad_stream.2.2.2.1 emptyItem "wibble" [] [] (by decide)
  · exact C5_decode_fails_only_on_bad_stream.2.2.2.2 emptyItem [] "not a date"

/-- C6: the fetch operation validates before any network I/O: an empty URL
fails with the dedicated error (produced before a request is even
constructed), a URL the request constructor rejects (control characters
make `url.Parse` fail) fails with the wrapped constructor error, and in
both cases the HTTP client is never invoked — the outcome is identical for
any two clients. -/
theorem C6_fetch_validates_before_io (ctx : Ctx) (reddit : Bool) :
    (∀ client : Client, ReadWithClient ctx "" client reddit = (.error .emptyURL, 0))
    ∧ GoError.emptyURL.message = "URL cannot be empty"
    ∧ (∀ (url : String) (client : Client), hasCtl url = true → url ≠ "" →
        ReadWithClient ctx url client reddit
          = (.error (.badRequest "net/url: invalid control character in URL"), 0))
    ∧ (∀ (url : String) (c1 c2 : Client), (url = "" ∨ hasCtl url = true) →
        ReadWithClient ctx url c1 reddit = ReadWithClient ctx url c2 reddit) := by
  refine ⟨fun client => rfl, rfl, ?_, ?_⟩
  · intro url client h hne
    simp [ReadWithClient, hne, newRequestWithContext, h]
  · intro url c1 c2 h
    rcases h with h | h
    · subst h
      rfl
    · by_cases hne : url = ""
      · subst hne
        rfl
      · simp [ReadWithClient, hne, newRequestWithContext, h]

/-- C6 witness: the empty URL and a URL containing a control character
both fail fast, with any client. -/
theorem C6_fetch_validates_before_io_witness :
    ReadWithClient none "" (fun _ => .error (.fetchFailed "boom")) false
      = (.error .emptyURL, 0)
    ∧ ReadWithClient none "http://e\x01xample.com" (fun _ => .error (.fetchFailed "boom")) false
      = (.error (.badRequest "net/url: invalid control character in URL"), 0) :=
  ⟨(C6_fetch_validates_before_io none false).1 _,
    (C6_fetch_validates_before_io none false).2.2.1 "http://e\x01xample.com" _ (by decide)
      (by decide)⟩

/-- C4: when the client returns a response with a status outside 2xx,
`ReadWithClient` closes the response body (exactly one close happens
inside the call) and fails with an error carrying the numeric status code
and the status text; the caller receives no response handle. -/
theorem C4_non2xx_closes_and_fails (ctx : Ctx) (url : String) (client : Client)
    (reddit : Bool) (resp : HttpResponse)
    (hu : url ≠ "") (hc : hasCtl url = false)
    (hdo : client (setHeader ⟨url, [], ctx⟩ "user-agent" (userAgent reddit)) = .ok resp)
    (hst : resp.StatusCode < 200 ∨ 300 ≤ resp.StatusCode) :
    ReadWithClient ctx url client reddit
        = (.error (.httpStatus resp.StatusCode resp.Status), 1)
    ∧ (GoError.httpStatus resp.StatusCode resp.Status).message
        = "HTTP " ++ toString resp.StatusCode ++ ": " ++ resp.Status := by
  refine ⟨?_, rfl⟩
  have hif : (resp.StatusCode < 200 || 300 ≤ resp.StatusCode) = true := by
    rcases hst with h | h <;> simp [h]
  simp [ReadWithClient, hu, newRequestWithContext, hc, hdo, hif]

/-- C4 witness: a 404 response is closed and surfaced as an error carrying
the code and text. -/
theorem C4_non2xx_closes_and_fails_witness :
    ReadWithClient none "http://example.com/feed"
        (fun _ => .ok ⟨404, "404 Not Found", .error (.readErr "eof")⟩) false
      = (.error (.httpStatus 404 "404 Not Found"), 1)
    ∧ (GoError.httpStatus 404 "404 Not Found").message = "HTTP 404: 404 Not Found" := by
  have := C4_non2xx_closes_and_fails none "http://example.com/feed"
    (fun _ => .ok ⟨404, "404 Not Found", .error (.readErr "eof")⟩) false
    ⟨404, "404 Not Found", .error (.readErr "eof")⟩
    (by decide) (by decide) rfl (by decide)
  exact this

/-- C10: a well-formed document whose elements match none of the target
record's fields decodes successfully into the all-empty record: given to
the Atom decoder, a document with no `<entry>` children at the root (for
example an RSS 2.0 document) yields `.ok` with a `Feed` of zero entries,
and given to the RSS decoder, a document with no `<channel>` child yields
the zero `Channel`; a format mismatch is therefore undetectable from the
error result. -/
theorem C10_wrong_schema_decodes_empty (tag : String) (a : List (String × String))
    (cs : List Xml) :
    ((cs.all fun x => !(isElemOf "entry" x)) = true →
      decodeFeedStruct (.elem tag a cs) = ⟨[]⟩
      ∧ ∀ (code : Nat) (st : String),
          Atom ⟨code, st, .ok (.elem tag a cs)⟩ = (.ok ⟨[]⟩, 1))
    ∧ ((cs.all fun x => !(isElemOf "channel" x)) = true →
      ParseRegular none (.ok (.elem tag a cs)) = .ok emptyChannel) := by
  constructor
  · intro h
    have hf : decodeFeedStruct (.elem tag a cs) = ⟨[]⟩ := by
      show Feed.mk ((decodeFeedStruct (.elem tag a cs)).Entry) = _
      rw [show (decodeFeedStruct (.elem tag a cs)).Entry
          = (cs.foldl decodeFeedChild ⟨[]⟩).Entry from rfl, foldl_feed_entry,
        entryLists_nil_of_no_entry cs h]
      rfl
    refine ⟨hf, fun code st => ?_⟩
    show (Except.ok (decodeFeedStruct (.elem tag a cs)), 1) = _
    rw [hf]
  · intro h
    show Except.ok (decodeRssStruct (.elem tag a cs)) = _
    rw [show decodeRssStruct (.elem tag a cs) = cs.foldl decodeRssChild emptyChannel from rfl,
      foldl_rss_no_channel cs emptyChannel h]

/-- Error strings produced by the parse model are never empty: every one
starts with the fixed `parsing time` prefix. -/
theorem goTimeParse_error_nonempty (layout value e : String)
    (h : goTimeParse layout value = .error e) : e ≠ "" := by
  unfold goTimeParse at h
  have base : ∀ d : String,
      ("parsing time " ++ quoteStr value ++ " as " ++ quoteStr layout ++ ": " ++ d) ≠ "" := by
    intro d hemp
    have hl := congrArg String.length hemp
    simp only [String.length_append] at hl
    have h0 : "parsing time ".length = 13 := by decide
    have h9 : ("" : String).length = 0 := by decide
    omega
  split at h
  · have h2 := Except.error.inj h
    rw [← h2]
    exact base _
  · split at h
    · have h2 := Except.error.inj h
      rw [← h2]
      exact base _
    · exact absurd h (by simp)

/-- C2: `Date.Parse` tries exactly three layouts in a fixed order —
wordpress, then RFC 822, then RFC 3339 — returning the result of the first
layout that parses; when none matches, the returned error is exactly the
RFC 3339 attempt's error, carrying that last layout's failure detail. -/
theorem C2_parse_tries_three_layouts (d : Date) :
    (∀ t, d.ParseWithFormat wordpressDateFormat = .ok t → d.Parse = .ok t)
    ∧ (∀ t, isOkB (d.ParseWithFormat wordpressDateFormat) = false →
        d.ParseWithFormat RFC822 = .ok t → d.Parse = .ok t)
    ∧ (isOkB (d.ParseWithFormat wordpressDateFormat) = false →
        isOkB (d.ParseWithFormat RFC822) = false →
        d.Parse = d.ParseWithFormat RFC3339) := by
  unfold Date.Parse
  refine ⟨?_, ?_, ?_⟩
  · intro t h
    rw [h]
  · intro t h1 h2
    cases hw : d.ParseWithFormat wordpressDateFormat with
    | ok t2 => rw [hw] at h1; simp [isOkB] at h1
    | error e => simp [h2]
  · intro h1 h2
    cases hw : d.ParseWithFormat wordpressDateFormat with
    | ok t2 => rw [hw] at h1; simp [isOkB] at h1
    | error e =>
      cases h8 : d.ParseWithFormat RFC822 with
      | ok t2 => rw [h8] at h2; simp [isOkB] at h2
      | error e2 => simp [h8]

/-- C2 witness: each of the three branches is exercised — a wordpress-form
date, an RFC 822 date that the wordpress layout rejects, and a string no
layout matches, whose error names the RFC 3339 layout. -/
theorem C2_parse_tries_three_layouts_witness :
    Date.Parse "Mon, 02 Jan 2006 15:04:05 -0700" = .ok ⟨2006, 1, 2, 15, 4, 5, -25200, ""⟩
    ∧ Date.Parse "02 Jan 06 15:04 MST" = .ok ⟨2006, 1, 2, 15, 4, 0, 0, "MST"⟩
    ∧ Date.Parse "not a date"
        = .error "parsing time \"not a date\" as \"2006-01-02T15:04:05Z07:00\": cannot parse year" := by
  refine ⟨(C2_parse_tries_three_layouts "Mon, 02 Jan 2006 15:04:05 -0700").1 _ rfl,
    (C2_parse_tries_three_layouts "02 Jan 06 15:04 MST").2.1 _ rfl rfl, ?_⟩
  rw [(C2_parse_tries_three_layouts "not a date").2.2 rfl rfl]
  rfl

/-- C8: `Date.MustFormat` never signals failure.  When `Parse` succeeds it
returns the formatted string; when `Parse` fails it returns the error's
textual description, which is non-empty, in place of a formatted date.  It
is distinct from the failing `Format`, which returns the empty string
paired with the error. -/
theorem C8_mustformat_never_fails (d : Date) (format : String) :
    (∀ t, d.Parse = .ok t →
      d.Format format = (goFormat format t, none)
      ∧ d.MustFormat format = goFormat format t)
    ∧ (∀ e, d.Parse = .error e →
      d.Format format = ("", some e) ∧ d.MustFormat format = e ∧ e ≠ "") := by
  constructor
  · intro t h
    have hf : d.Format format = (goFormat format t, none) := by
      unfold Date.Format
      rw [h]
    exact ⟨hf, by unfold Date.MustFormat; rw [hf]⟩
  · intro e h
    have hf : d.Format format = ("", some e) := by
      unfold Date.Format
      rw [h]
    have hne : e ≠ "" := by
      unfold Date.Parse at h
      cases hw : d.ParseWithFormat wordpressDateFormat with
      | ok t => rw [hw] at h; exact absurd h (by simp)
      | error e1 =>
        rw [hw] at h
        cases h8 : d.ParseWithFormat RFC822 with
        | ok t => rw [h8] at h; exact absurd h (by simp)
        | error e2 =>
          rw [h8] at h
          exact goTimeParse_error_nonempty RFC3339 d e h
    exact ⟨hf, by unfold Date.MustFormat; rw [hf], hne⟩

/-- C8 witness: for a supported layout `Parse` succeeds and `MustFormat`
formats; for a string matching no layout, `Format` fails with the empty
string plus the error while `MustFormat` returns that non-empty error
text. -/
theorem C8_mustformat_never_fails_witness :
    Date.MustFormat "Mon, 02 Jan 2006 15:04:05 -0700" "2006-01-02" = "2006-01-02"
    ∧ Date.Format "nope" "2006-01-02"
        = ("", some "parsing time \"nope\" as \"2006-01-02T15:04:05Z07:00\": cannot parse year")
    ∧ Date.MustFormat "nope" "2006-01-02"
        = "parsing time \"nope\" as \"2006-01-02T15:04:05Z07:00\": cannot parse year"
    ∧ "parsing time \"nope\" as \"2006-01-02T15:04:05Z07:00\": cannot parse year" ≠ "" := by
  have h1 := (C8_mustformat_never_fails "Mon, 02 Jan 2006 15:04:05 -0700" "2006-01-02").1
    ⟨2006, 1, 2, 15, 4, 5, -25200, ""⟩ rfl
  have h2 := (C8_mustformat_never_fails "nope" "2006-01-02").2
    "parsing time \"nope\" as \"2006-01-02T15:04:05Z07:00\": cannot parse year" rfl
  exact ⟨h1.2, h2.1, h2.2.1, h2.2.2⟩

/-- C7 counterexample: the round-trip claim fails as stated, in two ways.
First, for the output layout `"Mon"`: the wordpress-form date (a Monday)
formats to `"Mon"`, but re-parsing `"Mon"` with the same layout yields
January 1 of year 0 (Go checks a weekday for syntax and otherwise ignores
it), which is not the original instant — it does not even display the
same weekday under the very layout used: reformatting gives `"Sat"`.
Second, even for the wordpress layout itself: Go's parser accepts the
numeric zone offset `+9960` unchecked (99 h 60 min = 100 h), formatting
normalises it to the three-digit-hour `+10000`, and re-parsing that
string with the same layout fails outright on the extra digit. -/
theorem C7_format_reparse_counterexample :
    Date.Parse "Mon, 02 Jan 2006 15:04:05 -0700"
        = .ok ⟨2006, 1, 2, 15, 4, 5, -25200, ""⟩
    ∧ Date.Format "Mon, 02 Jan 2006 15:04:05 -0700" "Mon" = ("Mon", none)
    ∧ Date.ParseWithFormat ("Mon" : String) "Mon" = .ok ⟨0, 1, 1, 0, 0, 0, 0, "UTC"⟩
    ∧ ¬ sameInstant ⟨0, 1, 1, 0, 0, 0, 0, "UTC"⟩ ⟨2006, 1, 2, 15, 4, 5, -25200, ""⟩
    ∧ goFormat "Mon" ⟨0, 1, 1, 0, 0, 0, 0, "UTC"⟩ = "Sat"
    ∧ ("Sat" : String) ≠ "Mon"
    ∧ Date.Parse "Mon, 02 Jan 2006 15:04:05 +9960"
        = .ok ⟨2006, 1, 2, 15, 4, 5, 360000, ""⟩
    ∧ Date.Format "Mon, 02 Jan 2006 15:04:05 +9960" wordpressDateFormat
        = ("Mon, 02 Jan 2006 15:04:05 +10000", none)
    ∧ isOkB (Date.ParseWithFormat ("Mon, 02 Jan 2006 15:04:05 +10000" : String)
        wordpressDateFormat) = false :=
  ⟨rfl, rfl, rfl, by simp [sameInstant], rfl, by decide, rfl, rfl, rfl⟩

/-- C7 (amended): for every date string `Date.Parse` accepts whose zone
offset is below 100 hours in magnitude, and for the wordpress and RFC 3339
output layouts, formatting with `Date.Format` and re-parsing the result
with `Date.ParseWithFormat` under the same layout succeeds and yields the
original instant (every instant-determining field, offset included, is
recovered exactly; only the zone name may differ), and reformatting
reproduces the same string.  The two exclusions are those the
counterexample forces: output layouts displaying a field the parse cannot
reconstruct (such as the bare weekday layout `"Mon"`), and accepted dates
whose unchecked numeric offset reaches 100 hours, where the formatted
hour field widens to three digits the same layout cannot re-parse. -/
theorem C7_format_reparse_roundtrip (d : Date) (t : GoTime) (L : String)
    (hL : L = wordpressDateFormat ∨ L = RFC3339)
    (h : Date.Parse d = .ok t)
    (hoz : -360000 < t.offset ∧ t.offset < 360000) :
    ∃ s t2, Date.Format d L = (s, none)
      ∧ Date.ParseWithFormat (s : String) L = .ok t2
      ∧ sameInstant t2 t
      ∧ goFormat L t2 = s := by
  have hv := DateParse_validRanges d t h
  obtain ⟨hy, hm1, hm2, hd1, hd2, hh24, hmi, hsec, ho1, ho2, ho3⟩ := id hv
  have hfmt : ∀ M : String, Date.Format d M = (goFormat M t, none) := by
    intro M
    unfold Date.Format
    rw [h]
  rcases hL with hL | hL <;> subst hL
  · refine ⟨goFormat wordpressDateFormat t,
      ⟨t.year, t.month, t.day, t.hour, t.minute, t.second, t.offset, ""⟩,
      hfmt _, ?_, ?_, ?_⟩
    · exact goTimeParse_goFormat wordpressDateFormat t _ hv hoz rfl
        (by
          rw [foldl_applyTok_wp]
          exact finalize_allset t.year t.month t.day t.hour t.minute t.second t.offset
            hm1 hm2 hd1 hd2 hh24 hmi hsec)
    · exact ⟨rfl, rfl, rfl, rfl, rfl, rfl, rfl⟩
    · exact goFormat_sameInstant _ _ _ ⟨rfl, rfl, rfl, rfl, rfl, rfl, rfl⟩ rfl
  · by_cases hz : t.offset = 0
    · refine ⟨goFormat RFC3339 t,
        ⟨t.year, t.month, t.day, t.hour, t.minute, t.second, 0, "UTC"⟩,
        hfmt _, ?_, ?_, ?_⟩
      · exact goTimeParse_goFormat RFC3339 t _ hv hoz rfl
          (by
            rw [foldl_applyTok_rfc3339_zero t hz]
            exact finalize_allset_zlit t.year t.month t.day t.hour t.minute t.second "UTC"
              hm1 hm2 hd1 hd2 hh24 hmi hsec)
      · exact ⟨rfl, rfl, rfl, rfl, rfl, rfl, hz.symm⟩
      · exact goFormat_sameInstant _ _ _ ⟨rfl, rfl, rfl, rfl, rfl, rfl, hz.symm⟩ rfl
    · refine ⟨goFormat RFC3339 t,
        ⟨t.year, t.month, t.day, t.hour, t.minute, t.second, t.offset, ""⟩,
        hfmt _, ?_, ?_, ?_⟩
      · exact goTimeParse_goFormat RFC3339 t _ hv hoz rfl
          (by
            rw [foldl_applyTok_rfc3339_off t hz]
            exact finalize_allset t.year t.month t.day t.hour t.minute t.second t.offset
              hm1 hm2 hd1 hd2 hh24 hmi hsec)
      · exact ⟨rfl, rfl, rfl, rfl, rfl, rfl, rfl⟩
      · exact goFormat_sameInstant _ _ _ ⟨rfl, rfl, rfl, rfl, rfl, rfl, rfl⟩ rfl

/-- C7 witness: an RFC 822 date accepted by `Date.Parse` (zone offset
zero, well below the 100-hour bound), pushed through the RFC 3339 output
layout, round-trips to the same instant and the same string. -/
theorem C7_format_reparse_roundtrip_witness :
    (∃ s t2, Date.Format "02 Jan 06 15:04 MST" RFC3339 = (s, none)
      ∧ Date.ParseWithFormat (s : String) RFC3339 = .ok t2
      ∧ sameInstant t2 ⟨2006, 1, 2, 15, 4, 0, 0, "MST"⟩
      ∧ goFormat RFC3339 t2 = s) :=
  C7_format_reparse_roundtrip "02 Jan 06 15:04 MST" ⟨2006, 1, 2, 15, 4, 0, 0, "MST"⟩
    RFC3339 (Or.inr rfl) rfl (by decide)

/-- C10 witness: the spec's example RSS document, handed to the Atom
decoder, decodes successfully to a `Feed` with zero entries. -/
theorem C10_wrong_schema_decodes_empty_witness :
    decodeFeedStruct (.elem "rss" [("version", "2.0")]
        [.elem "channel" [] [.elem "title" [] [.text "Test Channel"],
          .elem "item" [] [.elem "title" [] [.text "Test Item"]]]])
      = ⟨[]⟩ :=
  ((C10_wrong_schema_decodes_empty "rss" [("version", "2.0")]
      [.elem "channel" [] [.elem "title" [] [.text "Test Channel"],
        .elem "item" [] [.elem "title" [] [.text "Test Item"]]]]).1
    (by decide)).1

end GoRss
